import Mathlib

/-!
Shallow embedding of the Spencer-Fano non-thermal electron solver from
`src/artistools/spencerfano.py`.  Python floats are modelled as real numbers,
numpy arrays over the energy grid as functions `Nat → ℝ` together with a length
`n`, and dataframes of shells / transitions as lists of records.  The
collisional-ionization cross-section evaluator `at.nonthermal.get_arxs_array_shell`
lives in a module that is not part of the sources; following the spec it is an
external empirical-fit table, so each shell record carries its precomputed
cross-section array `xs` as data.  Fallible code paths (Python assertions and
use of a variable that may never be assigned) are modelled with `Option`.
-/

open scoped Classical

/-- cgs constant: electron volt in erg (`EV` in the source). -/
def EV : ℝ := 1.6021772e-12

/-- cgs constant: Planck constant (`H` in the source). -/
def H : ℝ := 6.6260755e-27

/-- cgs constant: electron mass (`ME` in the source). -/
def ME : ℝ := 9.1093897e-28

/-- cgs constant: electron charge (`QE` in the source). -/
def QE : ℝ := 4.80325e-10

/-- Hydrogen ionization potential in erg (`H_ionpot` in the source). -/
def H_ionpot : ℝ := 13.5979996 * EV

/-- cgs constant: speed of light (`CLIGHT` in the source). -/
def CLIGHT : ℝ := 2.99792458e10

/-- Bohr radius squared in cm^2, local constant of `get_xs_excitation_vector`. -/
def A_naught_squared : ℝ := 2.800285203e-17

/-- One row of the collisional-ionization shell table (`dfcollion` rows).
The cross-section array `xs` is the value of the external
`at.nonthermal.get_arxs_array_shell(engrid, shell)` on the energy grid. -/
structure Shell where
  Z : ℕ
  ionstage : ℕ
  ionpot_ev : ℝ
  xs : ℕ → ℝ

/-- One row of a per-ion transition table (`dftransitions` rows), carrying the
columns that `get_xs_excitation_vector` and the excitation assembly read. -/
structure Transition where
  collstr : ℝ
  forbidden : Bool
  A : ℝ
  epsilon_trans_ev : ℝ
  lower_g : ℝ
  upper_g : ℝ
  lower_pop : ℝ

/-- One ion of the solve: its identity `(Z, ionstage)`, its number density
`ionpopdict[(Z, ionstage)]`, its ionization shells, and the transition rows
selected from the external atomic-data table when excitation is enabled. -/
structure IonData where
  Z : ℕ
  ionstage : ℕ
  nnion : ℝ
  shells : List Shell
  transitions : List Transition

/-- Embedding of `get_index(en_ev, engrid)`: the Python loop keeps the last
index `i` (scanning `i = 0 .. n-1`) with `engrid[i] < en_ev`; when no index
satisfies the test the local variable `index` is never assigned and the
function raises, which is modelled by `none`. -/
noncomputable def get_index (en_ev : ℝ) (engrid : ℕ → ℝ) : ℕ → Option ℕ
  | 0 => none
  | n + 1 => if engrid n < en_ev then some n else get_index en_ev engrid n

theorem get_index_some_lt {en_ev : ℝ} {engrid : ℕ → ℝ} {n k : ℕ}
    (h : get_index en_ev engrid n = some k) : k < n ∧ engrid k < en_ev := by
  induction n with
  | zero => simp [get_index] at h
  | succ m ih =>
    rw [get_index] at h
    by_cases hc : engrid m < en_ev
    · rw [if_pos hc] at h
      cases h
      exact ⟨Nat.lt_succ_self _, hc⟩
    · rw [if_neg hc] at h
      obtain ⟨h1, h2⟩ := ih h
      exact ⟨Nat.lt_succ_of_lt h1, h2⟩

theorem get_index_some_ge {en_ev : ℝ} {engrid : ℕ → ℝ} {n k : ℕ}
    (h : get_index en_ev engrid n = some k) :
    ∀ m, k < m → m < n → ¬ engrid m < en_ev := by
  induction n with
  | zero => simp [get_index] at h
  | succ p ih =>
    intro m hkm hmn
    rw [get_index] at h
    by_cases hc : engrid p < en_ev
    · rw [if_pos hc] at h
      cases h
      omega
    · rw [if_neg hc] at h
      rcases Nat.lt_succ_iff_lt_or_eq.mp hmn with hm | hm
      · exact ih h m hkm hm
      · rw [hm]; exact hc

theorem get_index_isSome {en_ev : ℝ} {engrid : ℕ → ℝ} {n m : ℕ}
    (hm : m < n) (h : engrid m < en_ev) : ∃ k, get_index en_ev engrid n = some k := by
  induction n with
  | zero => omega
  | succ p ih =>
    rw [get_index]
    by_cases hc : engrid p < en_ev
    · exact ⟨p, if_pos hc⟩
    · rw [if_neg hc]
      rcases Nat.lt_succ_iff_lt_or_eq.mp hm with hmp | hmp
      · exact ih hmp
      · exact absurd (hmp ▸ h) hc

theorem get_index_none {en_ev : ℝ} {engrid : ℕ → ℝ} {n : ℕ}
    (h : ∀ m, m < n → ¬ engrid m < en_ev) : get_index en_ev engrid n = none := by
  induction n with
  | zero => rfl
  | succ p ih =>
    rw [get_index, if_neg (h p (Nat.lt_succ_self p))]
    exact ih fun m hm => h m (Nat.lt_succ_of_lt hm)

/-- One step of the occupancy loop of `get_electronoccupancy`: place one more
bound electron in the first shell of the fixed spectroscopic order with room
left (K, L1, L2, L3, M1, M2, M3, then M4/M5/N1 ordered by ion charge).  The
Boolean records whether the final `else` branch was reached, in which case the
source merely prints `Going beyond the 4s shell in NT calculation. Abort!` and
continues without modifying the occupancies. -/
def addElectron (ioncharge : ℕ) (q : List ℕ) : List ℕ × Bool :=
  if q.getD 0 0 < 2 then (q.set 0 (q.getD 0 0 + 1), false)
  else if q.getD 1 0 < 2 then (q.set 1 (q.getD 1 0 + 1), false)
  else if q.getD 2 0 < 2 then (q.set 2 (q.getD 2 0 + 1), false)
  else if q.getD 3 0 < 4 then (q.set 3 (q.getD 3 0 + 1), false)
  else if q.getD 4 0 < 2 then (q.set 4 (q.getD 4 0 + 1), false)
  else if q.getD 5 0 < 2 then (q.set 5 (q.getD 5 0 + 1), false)
  else if q.getD 6 0 < 4 then (q.set 6 (q.getD 6 0 + 1), false)
  else if ioncharge = 0 then
    if q.getD 9 0 < 2 then (q.set 9 (q.getD 9 0 + 1), false)
    else if q.getD 7 0 < 4 then (q.set 7 (q.getD 7 0 + 1), false)
    else if q.getD 8 0 < 6 then (q.set 8 (q.getD 8 0 + 1), false)
    else (q, true)
  else if ioncharge = 1 then
    if q.getD 9 0 < 1 then (q.set 9 (q.getD 9 0 + 1), false)
    else if q.getD 7 0 < 4 then (q.set 7 (q.getD 7 0 + 1), false)
    else if q.getD 8 0 < 6 then (q.set 8 (q.getD 8 0 + 1), false)
    else (q, true)
  else
    if q.getD 7 0 < 4 then (q.set 7 (q.getD 7 0 + 1), false)
    else if q.getD 8 0 < 6 then (q.set 8 (q.getD 8 0 + 1), false)
    else (q, true)

/-- Embedding of `get_electronoccupancy(atomic_number, ion_stage, nt_shells)`:
distribute the `Z - (ion_stage - 1)` bound electrons over the modeled shells,
together with a flag recording whether any electron hit the overflow branch
(whose only effect in the source is a printed message). -/
def get_electronoccupancy (atomic_number ion_stage nt_shells : ℕ) :
    List ℕ × Bool :=
  let ioncharge := ion_stage - 1
  let nbound := atomic_number - ioncharge
  (List.range nbound).foldl
    (fun st _ => let r := addElectron ioncharge st.1; (r.1, st.2 || r.2))
    (List.replicate nt_shells 0, false)

/-- Embedding of `lossfunction(energy_ev, nne_cgs, nnetot_cgs, use_nnetot)`:
Coulomb energy-loss rate of a fast electron, in eV/cm, with the relativistic
Coulomb-log branch for `energy_ev > 14` and the Euler-Mascheroni branch
otherwise. -/
noncomputable def lossfunction (energy_ev nne_cgs nnetot_cgs : ℝ) (use_nnetot : Bool) : ℝ :=
  let nne_selected_cgs := if use_nnetot then nnetot_cgs else nne_cgs
  let nne := nne_selected_cgs
  let energy := energy_ev * EV
  let omegap := 5.64e4 * Real.sqrt nne_selected_cgs
  let zetae := H * omegap / 2 / Real.pi
  let lossfunc :=
    if energy_ev > 14 then
      nne * 2 * Real.pi * QE ^ 4 / energy * Real.log (2 * energy / zetae)
    else
      let v := Real.sqrt (2 * energy / ME)
      let eulergamma := 0.577215664901532
      nne * 2 * Real.pi * QE ^ 4 / energy *
        Real.log (ME * v ^ 3 / (eulergamma * QE ^ 2 * omegap))
  lossfunc / EV

/-- Embedding of `Psecondary(e_p, ionpot_ev, J, e_s, epsilon)`: normalized
secondary-electron energy distribution.  As in the source, a negative `e_s`
means only `epsilon` was supplied and `e_s = epsilon - ionpot_ev` is derived. -/
noncomputable def Psecondary (e_p ionpot_ev J e_s epsilon : ℝ) : ℝ :=
  let e_s2 := if e_s < 0 then epsilon - ionpot_ev else e_s
  1 / J / Real.arctan ((e_p - ionpot_ev) / 2 / J) / (1 + (e_s2 / J) ^ 2)

/-- Embedding of `get_J(Z, ionstage, ionpot_ev)`: the Opal et al. 1971
J parameter, with tabulated exceptions for neutral He, Ne and Ar. -/
noncomputable def get_J (Z ionstage : ℕ) (ionpot_ev : ℝ) : ℝ :=
  if ionstage = 1 then
    if Z = 2 then 15.8
    else if Z = 10 then 24.2
    else if Z = 18 then 10.0
    else 0.6 * ionpot_ev
  else 0.6 * ionpot_ev

/-- Embedding of `get_xs_excitation_vector(engrid, row)` evaluated at grid
index `j`: zero below the transition threshold; the collision-strength form
when `collstr >= 0` (Li et al. 2012 eq. 11); otherwise, for permitted
transitions, the oscillator-strength Coulomb form with the `g_bar` logarithmic
correction (Mewe 1972 eq. 4).  In the permitted branch the source follows the
vectorized assignment (indices from `startindex`) with a scalar loop rewriting
every entry with `engrid[j]*EV >= epsilon_trans` by the same formula, hence the
disjunction below. -/
noncomputable def get_xs_excitation_vector (engrid : ℕ → ℝ) (n : ℕ)
    (row : Transition) (j : ℕ) : ℝ :=
  let deltaen := engrid 1 - engrid 0
  let coll_str := row.collstr
  let epsilon_trans := row.epsilon_trans_ev * EV
  let epsilon_trans_ev := row.epsilon_trans_ev
  let startindex : ℤ := Int.ceil ((epsilon_trans_ev - engrid 0) / deltaen)
  if j < n then
    if coll_str ≥ 0 then
      if startindex ≤ (j : ℤ) then
        H_ionpot ^ 2 / row.lower_g * coll_str * Real.pi * A_naught_squared *
          (engrid j * EV) ^ (-2 : ℤ)
      else 0
    else if row.forbidden = false then
      if startindex ≤ (j : ℤ) ∨ epsilon_trans ≤ engrid j * EV then
        let nu_trans := epsilon_trans / H
        let g := row.upper_g / row.lower_g
        let fij := g * ME * CLIGHT ^ 3 / (8 * (QE * nu_trans * Real.pi) ^ 2) * row.A
        let constantfactor :=
          45.585750051 * A_naught_squared * (H_ionpot / epsilon_trans) ^ 2 * fij
        let U := engrid j / epsilon_trans_ev
        let g_bar := 0.28 * Real.log U + 0.15
        constantfactor * g_bar / U
      else 0
    else 0
  else 0

/-- Embedding of one transition of `sfmatrix_add_excitation(engrid,
dftransitions_ion, nnion, sfmatrix)`: row `i` receives
`nnlevel * deltaen * xs_excitation[j]` on the column slice
`[i : stopindex - i + 1]` (that is, columns `i <= j <= stopindex - i`) whenever
`stopindex = i + ceil(epsilon_trans_ev / deltaen) < npts - 1`, mirroring the
source's slice arithmetic literally.  The full source function folds this over
the ion's transition rows. -/
noncomputable def sfmatrix_add_excitation (engrid : ℕ → ℝ) (n : ℕ)
    (row : Transition) (sfmatrix : ℕ → ℕ → ℝ) : ℕ → ℕ → ℝ := fun i j =>
  let deltaen := engrid 1 - engrid 0
  let epsilon_trans_ev := row.epsilon_trans_ev
  let stopindex : ℤ := (i : ℤ) + Int.ceil (epsilon_trans_ev / deltaen)
  sfmatrix i j +
    if engrid 0 ≤ epsilon_trans_ev ∧ i < n ∧ j < n ∧ stopindex < (n : ℤ) - 1 ∧
        i ≤ j ∧ (j : ℤ) ≤ stopindex - (i : ℤ) then
      row.lower_pop * deltaen * get_xs_excitation_vector engrid n row j
    else 0

/-- Increment that `sfmatrix_add_ionization_shell(engrid, nnion, shell,
sfmatrix)` adds to entry `(i, j)`: the closed-form arctangent integral of the
`Psecondary` kernel over `[endash - en, (endash + ionpot) / 2]`, minus the
symmetric fold-over correction (lower bound `en + ionpot`) on columns at and
beyond `secondintegralstartindex + 1`.  A failed `get_index` (a `NameError` in
the source, impossible on the grids the solver builds) is defaulted so that it
selects no column. -/
noncomputable def ionizationEntry (engrid : ℕ → ℝ) (n : ℕ) (nnion : ℝ)
    (shell : Shell) (i j : ℕ) : ℝ :=
  let deltaen := engrid 1 - engrid 0
  let ionpot_ev := shell.ionpot_ev
  let J := get_J shell.Z shell.ionstage ionpot_ev
  let xsstartindex :=
    if ionpot_ev ≤ engrid 0 then 0 else (get_index ionpot_ev engrid n).getD 0
  let en := engrid i
  let jstart := max i xsstartindex
  let secondintegralstartindex :=
    if 2 * en + ionpot_ev < engrid (n - 1) + (engrid 1 - engrid 0) then
      (get_index (2 * en + ionpot_ev) engrid n).getD (n + 1)
    else n + 1
  if i < n ∧ j < n ∧ jstart ≤ j then
    let endash := engrid j
    let prefactor := nnion * shell.xs j / Real.arctan ((endash - ionpot_ev) / 2 / J) * deltaen
    let epsilon_upper := (endash + ionpot_ev) / 2
    let int_eps_upper := Real.arctan ((epsilon_upper - ionpot_ev) / J)
    let firstterm := prefactor * (int_eps_upper - Real.arctan ((endash - en - ionpot_ev) / J))
    let secondterm := prefactor * (int_eps_upper - Real.arctan ((en + ionpot_ev - ionpot_ev) / J))
    if secondintegralstartindex + 1 ≤ j then firstterm - secondterm else firstterm
  else 0

/-- Embedding of `sfmatrix_add_ionization_shell`: add the ionization-shell
increments to the matrix. -/
noncomputable def sfmatrix_add_ionization_shell (engrid : ℕ → ℝ) (n : ℕ)
    (nnion : ℝ) (shell : Shell) (sfmatrix : ℕ → ℕ → ℝ) : ℕ → ℕ → ℝ := fun i j =>
  sfmatrix i j + ionizationEntry engrid n nnion shell i j

/-- Increment that `differentialsfmatrix_add_ionization_shell` adds to entry
`(i, j)`: the diagonal closed-form `P_int` term, the 100-point quadrature of
the `Psecondary` kernel over `[ionpot, enlambda]` (each quadrature node
subtracting from the column `get_index(en + epsilon)` selects), and the
high-energy tail term on columns from `get_index(2 en + ionpot)` onwards.  A
failed `get_index` (a `NameError` in the source) is defaulted to the
out-of-grid column `n`, selecting nothing. -/
noncomputable def differentialIonizationEntry (engrid : ℕ → ℝ) (n : ℕ)
    (nnion : ℝ) (shell : Shell) (i j : ℕ) : ℝ :=
  let delta_en := engrid 1 - engrid 0
  let ionpot_ev := shell.ionpot_ev
  let J := get_J shell.Z shell.ionstage ionpot_ev
  let xsstartindex :=
    if ionpot_ev ≤ engrid 0 then 0 else (get_index ionpot_ev engrid n).getD 0
  let en := engrid i
  if i < n ∧ xsstartindex ≤ i ∧ j < n then
    (if j = i ∧ ionpot_ev < (ionpot_ev + en) / 2 then
        nnion * shell.xs i * (1 / Real.arctan ((en - ionpot_ev) / 2 / J) *
          (Real.arctan (((ionpot_ev + en) / 2 - ionpot_ev) / J) -
           Real.arctan ((ionpot_ev - ionpot_ev) / J)))
      else 0)
    +
    (let enlambda := min (engrid (n - 1) - en) (en + ionpot_ev)
     if ionpot_ev < enlambda then
       let delta_eps := (enlambda - ionpot_ev) / 100
       let prefactor := nnion / J / Real.arctan ((en - ionpot_ev) / 2 / J) * delta_eps
       (-(∑ k ∈ Finset.range 100,
           if (get_index (en + (ionpot_ev + k * delta_eps)) engrid n).getD n = j then
             prefactor * shell.xs j / (1 + (((ionpot_ev + k * delta_eps) - ionpot_ev) / J) ^ 2)
           else 0))
     else 0)
    +
    (if 2 * en + ionpot_ev < engrid (n - 1) then
       let epsilon := en + ionpot_ev
       let prefactor := nnion / J / (1 + ((epsilon - ionpot_ev) / J) ^ 2) * delta_en
       let i_endash_lower := (get_index (2 * en + ionpot_ev) engrid n).getD n
       if i_endash_lower ≤ j then
         -(prefactor * shell.xs j * (1 / Real.arctan ((engrid j - ionpot_ev) / 2 / J)))
       else 0
     else 0)
  else 0

/-- Embedding of `differentialsfmatrix_add_ionization_shell`: add the
differential-form ionization-shell increments to the matrix. -/
noncomputable def differentialsfmatrix_add_ionization_shell (engrid : ℕ → ℝ)
    (n : ℕ) (nnion : ℝ) (shell : Shell) (sfmatrix : ℕ → ℕ → ℝ) : ℕ → ℕ → ℝ :=
  fun i j => sfmatrix i j + differentialIonizationEntry engrid n nnion shell i j

/-- Dot product of two grid vectors over the first `n` grid points, the model
of `np.dot` on arrays of length `n`. -/
noncomputable def dotGrid (n : ℕ) (a b : ℕ → ℝ) : ℝ :=
  ∑ i ∈ Finset.range n, a i * b i

/-- Embedding of `get_nnetot(ions, ionpopdict)`: total electron density
counting all electrons of every ion. -/
noncomputable def get_nnetot (iondata : List IonData) : ℝ :=
  (iondata.map fun ion => (ion.Z : ℝ) * ion.nnion).sum

/-- View an entrywise `ℕ`-indexed matrix as an `n × n` matrix. -/
noncomputable def toMatrix (n : ℕ) (A : ℕ → ℕ → ℝ) : Matrix (Fin n) (Fin n) ℝ :=
  Matrix.of fun i j => A i.1 j.1

/-- Exact-arithmetic model of `linalg.lu_factor` / `linalg.lu_solve`: the LU
solution of `A x = b` is `A⁻¹ b` (entries outside the grid are zero). -/
noncomputable def luSolve (n : ℕ) (A : ℕ → ℕ → ℝ) (b : ℕ → ℝ) : ℕ → ℝ := fun i =>
  if h : i < n then ((toMatrix n A)⁻¹.mulVec fun j => b j.1) ⟨i, h⟩ else 0

/-- The scalar `E_init_ev = np.dot(engrid, sourcevec) * deltaen` computed by
both solver entry points. -/
noncomputable def E_init_ev (engrid : ℕ → ℝ) (n : ℕ) (sourcevec : ℕ → ℝ) : ℝ :=
  dotGrid n engrid sourcevec * (engrid 1 - engrid 0)

/-- The integral-form right-hand side: `constvec[i] = sum over j >= i of
sourcevec[j] * deltaen` (the source's nested accumulation loop). -/
noncomputable def sf_constvec (engrid : ℕ → ℝ) (n : ℕ) (sourcevec : ℕ → ℝ) :
    ℕ → ℝ := fun i =>
  ∑ j ∈ Finset.Ico i n, sourcevec j * (engrid 1 - engrid 0)

/-- Diagonal loss term of the integral-form Spencer-Fano matrix. -/
noncomputable def sfmatrix_base (engrid : ℕ → ℝ) (n : ℕ) (nne nnetot : ℝ) :
    ℕ → ℕ → ℝ := fun i j =>
  if i = j ∧ i < n then lossfunction (engrid i) nne nnetot false else 0

/-- Integral-form matrix after folding every ionization shell of every ion. -/
noncomputable def sfmatrix_with_ionization (engrid : ℕ → ℝ) (n : ℕ)
    (iondata : List IonData) (nne nnetot : ℝ) : ℕ → ℕ → ℝ :=
  iondata.foldl
    (fun M ion => ion.shells.foldl
      (fun M2 s => sfmatrix_add_ionization_shell engrid n ion.nnion s M2) M)
    (sfmatrix_base engrid n nne nnetot)

/-- The fully assembled integral-form operator: loss diagonal, ionization
shells, and (unless `noexcitation`) the excitation rows of every ion. -/
noncomputable def sfmatrix_assembled (engrid : ℕ → ℝ) (n : ℕ)
    (iondata : List IonData) (nne nnetot : ℝ) (noexcitation : Bool) :
    ℕ → ℕ → ℝ :=
  if noexcitation then sfmatrix_with_ionization engrid n iondata nne nnetot
  else
    iondata.foldl
      (fun M ion => ion.transitions.foldl
        (fun M2 t => sfmatrix_add_excitation engrid n t M2) M)
      (sfmatrix_with_ionization engrid n iondata nne nnetot)

/-- Embedding of `solve_spencerfano`: assemble the integral-form operator,
LU-solve it against the tail-summed source, and rescale by
`deposition_density_ev / E_init_ev`.  The transition tables (built in the
source from the external atomic-data frames) are returned per ion when
excitation is enabled.  The per-shell `assert shell.ionpot_ev >= engrid[0]` is
modelled by `solve_spencerfano_checked`. -/
noncomputable def solve_spencerfano (engrid : ℕ → ℝ) (n : ℕ)
    (iondata : List IonData) (nne deposition_density_ev : ℝ)
    (sourcevec : ℕ → ℝ) (noexcitation : Bool) :
    (ℕ → ℝ) × List (ℕ × ℕ × List Transition) :=
  let nnetot := get_nnetot iondata
  let sfmatrix := sfmatrix_assembled engrid n iondata nne nnetot noexcitation
  let constvec := sf_constvec engrid n sourcevec
  let yvec_reference := luSolve n sfmatrix constvec
  let yvec := fun i =>
    yvec_reference i * deposition_density_ev / E_init_ev engrid n sourcevec
  let dftransitions :=
    if noexcitation then []
    else iondata.map fun ion => (ion.Z, ion.ionstage, ion.transitions)
  (yvec, dftransitions)

/-- The solver with its per-shell assertion: `none` models the
`AssertionError` raised when a shell's ionization potential lies below the
grid start. -/
noncomputable def solve_spencerfano_checked (engrid : ℕ → ℝ) (n : ℕ)
    (iondata : List IonData) (nne deposition_density_ev : ℝ)
    (sourcevec : ℕ → ℝ) (noexcitation : Bool) :
    Option ((ℕ → ℝ) × List (ℕ × ℕ × List Transition)) :=
  if ∀ ion ∈ iondata, ∀ s ∈ ion.shells, engrid 0 ≤ s.ionpot_ev then
    some (solve_spencerfano engrid n iondata nne deposition_density_ev
      sourcevec noexcitation)
  else none

/-- Loss part of the differential-form matrix: the first-order upwind
discretization of `-d(y * loss) / dE`. -/
noncomputable def sfmatrix_diff_base (engrid : ℕ → ℝ) (n : ℕ) (nne nnetot : ℝ) :
    ℕ → ℕ → ℝ := fun i j =>
  let deltaen := engrid 1 - engrid 0
  if i < n ∧ j < n then
    if j = i then
      lossfunction (engrid i) nne nnetot false / deltaen -
        (lossfunction (engrid i + deltaen) nne nnetot false -
          lossfunction (engrid i) nne nnetot false) / deltaen
    else if j = i + 1 then -(lossfunction (engrid i) nne nnetot false / deltaen)
    else 0
  else 0

/-- Differential-form matrix after folding every ionization shell of every
ion onto the upwind loss discretization. -/
noncomputable def sfmatrix_diff_assembled (engrid : ℕ → ℝ) (n : ℕ)
    (iondata : List IonData) (nne nnetot : ℝ) : ℕ → ℕ → ℝ :=
  iondata.foldl
    (fun M ion => ion.shells.foldl
      (fun M2 s => differentialsfmatrix_add_ionization_shell engrid n ion.nnion s M2) M)
    (sfmatrix_diff_base engrid n nne nnetot)

/-- Embedding of `solve_spencerfano_differentialform`: assemble the
differential-form operator, LU-solve it against the source vector used
directly, rescale by `deposition_density_ev / E_init_ev`, and return the
(always empty) transition dictionary.  Its assertions are modelled by
`solve_spencerfano_differentialform_checked`. -/
noncomputable def solve_spencerfano_differentialform (engrid : ℕ → ℝ) (n : ℕ)
    (iondata : List IonData) (nne deposition_density_ev : ℝ)
    (sourcevec : ℕ → ℝ) (noexcitation : Bool) :
    (ℕ → ℝ) × List (ℕ × ℕ × List Transition) :=
  let nnetot := get_nnetot iondata
  let sfmatrix := sfmatrix_diff_assembled engrid n iondata nne nnetot
  let constvec := sourcevec
  let yvec_reference := luSolve n sfmatrix constvec
  let yvec := fun i =>
    yvec_reference i * deposition_density_ev / E_init_ev engrid n sourcevec
  (yvec, [])

/-- The differential-form solver with its assertions: per shell
`assert shell.ionpot_ev >= engrid[0]`, and per ion `assert noexcitation`
(so any non-empty ion list with excitation enabled raises). -/
noncomputable def solve_spencerfano_differentialform_checked (engrid : ℕ → ℝ)
    (n : ℕ) (iondata : List IonData) (nne deposition_density_ev : ℝ)
    (sourcevec : ℕ → ℝ) (noexcitation : Bool) :
    Option ((ℕ → ℝ) × List (ℕ × ℕ × List Transition)) :=
  if (∀ ion ∈ iondata, ∀ s ∈ ion.shells, engrid 0 ≤ s.ionpot_ev) ∧
      (iondata = [] ∨ noexcitation = true) then
    some (solve_spencerfano_differentialform engrid n iondata nne
      deposition_density_ev sourcevec noexcitation)
  else none

/-- Embedding of `calculate_nt_frac_excitation(engrid, dftransitions, yvec,
deposition_density_ev)`: Kozma & Fransson equation 4 summed over an ion's
transitions. -/
noncomputable def calculate_nt_frac_excitation (engrid : ℕ → ℝ) (n : ℕ)
    (dftransitions : List Transition) (yvec : ℕ → ℝ)
    (deposition_density_ev : ℝ) : ℝ :=
  let deltaen := engrid 1 - engrid 0
  let xs_excitation_vec_sum_alltrans := fun j =>
    (dftransitions.map fun row =>
      row.lower_pop * row.epsilon_trans_ev * get_xs_excitation_vector engrid n row j).sum
  dotGrid n xs_excitation_vec_sum_alltrans yvec * deltaen / deposition_density_ev

/-- Sum of a list of fallible real values, propagating the first failure, used
to model loops that accumulate across fallible `get_index` calls. -/
def optionSum : List (Option ℝ) → Option ℝ
  | [] => some 0
  | o :: rest => o.bind fun a => (optionSum rest).map fun b => a + b

/-- The two shell integrals of `calculate_N_e` (Kozma & Fransson equation 6)
for one shell: the 1000-point `np.arange(ionpot_ev, enlambda, delta_endash)`
quadrature and the 100-point quadrature from `2 * energy + ionpot` to the top
of the grid.  In exact arithmetic each `np.arange` has exactly its nominal
number of points when the step is positive and is empty otherwise. -/
noncomputable def N_e_shell_integrals (energy_ev : ℝ) (engrid : ℕ → ℝ) (n : ℕ)
    (yvec : ℕ → ℝ) (shell : Shell) : Option ℝ :=
  let ionpot_ev := shell.ionpot_ev
  let enlambda := min (engrid (n - 1) - energy_ev) (energy_ev + ionpot_ev)
  let J := get_J shell.Z shell.ionstage ionpot_ev
  let delta_endash := (enlambda - ionpot_ev) / 1000
  let part1 :=
    if 0 < delta_endash then
      optionSum ((List.range 1000).map fun k =>
        let endash := ionpot_ev + k * delta_endash
        (get_index (energy_ev + endash) engrid n).map fun idx =>
          yvec idx * shell.xs idx *
            Psecondary (energy_ev + endash) ionpot_ev J (-1) endash * delta_endash)
    else some 0
  let delta_endash2 := (engrid (n - 1) - (2 * energy_ev + ionpot_ev)) / 100
  let part2 :=
    if 0 < delta_endash2 then
      optionSum ((List.range 100).map fun k =>
        let endash := 2 * energy_ev + ionpot_ev + k * delta_endash2
        (get_index endash engrid n).map fun idx =>
          yvec idx * shell.xs idx *
            Psecondary endash ionpot_ev J (-1) (energy_ev + ionpot_ev) * delta_endash2)
    else some 0
  part1.bind fun a => part2.map fun b => a + b

/-- The body of `calculate_N_e` below its cache lookup: ionization integrals
summed over every shell of every ion (weighted by the ion density), plus the
per-transition excitation term when excitation is enabled. -/
noncomputable def N_e_body (energy_ev : ℝ) (engrid : ℕ → ℝ) (n : ℕ)
    (ions : List IonData) (yvec : ℕ → ℝ) (noexcitation : Bool) : Option ℝ :=
  let ionpart := optionSum (ions.map fun ion =>
    (optionSum (ion.shells.map fun shell =>
      N_e_shell_integrals energy_ev engrid n yvec shell)).map fun s => ion.nnion * s)
  let excpart :=
    if noexcitation then some 0
    else
      optionSum (ions.map fun ion => optionSum (ion.transitions.map fun row =>
        if engrid 0 ≤ row.epsilon_trans_ev then
          (get_index (energy_ev + row.epsilon_trans_ev) engrid n).map fun idx =>
            row.lower_pop * row.epsilon_trans_ev *
              get_xs_excitation_vector engrid n row idx * yvec idx
        else some 0))
  ionpart.bind fun a => excpart.map fun b => a + b

/-- Lookup model of `energy_ev in N_e_cache` and `N_e_cache[energy_ev]`: the
module-global dictionary is a list of key-value pairs keyed by the raw float
energy. -/
noncomputable def cacheLookup : List (ℝ × ℝ) → ℝ → Option ℝ
  | [], _ => none
  | (k, v) :: rest, e => if e = k then some v else cacheLookup rest e

/-- Embedding of `calculate_N_e(energy_ev, engrid, ions, ionpopdict, dfcollion,
yvec, dftransitions, noexcitation)` with the module-global `N_e_cache`
threaded explicitly: zero energy short-circuits without caching, a cache hit
returns the stored value ignoring every other argument, and otherwise the body
is computed and stored under the energy key. -/
noncomputable def calculate_N_e (energy_ev : ℝ) (engrid : ℕ → ℝ) (n : ℕ)
    (ions : List IonData) (yvec : ℕ → ℝ) (noexcitation : Bool)
    (N_e_cache : List (ℝ × ℝ)) : Option (ℝ × List (ℝ × ℝ)) :=
  if energy_ev = 0 then some (0, N_e_cache)
  else
    match cacheLookup N_e_cache energy_ev with
    | some v => some (v, N_e_cache)
    | none =>
      (N_e_body energy_ev engrid n ions yvec noexcitation).map fun N_e =>
        (N_e, (energy_ev, N_e) :: N_e_cache)

/-- The raw per-shell ionization fraction of `analyse_ntspectrum`:
`nnion * ionpot_ev * np.dot(yvec, ar_xs_array) * deltaen /
deposition_density_ev`, before the clamp. -/
noncomputable def frac_ionization_shell_raw (engrid : ℕ → ℝ) (n : ℕ)
    (yvec : ℕ → ℝ) (deposition_density_ev nnion : ℝ) (shell : Shell) : ℝ :=
  nnion * shell.ionpot_ev * dotGrid n yvec shell.xs * (engrid 1 - engrid 0) /
    deposition_density_ev

/-- Per-ion ionization fraction of `analyse_ntspectrum`: shell fractions are
accumulated after any value exceeding 1 has been reset to 0. -/
noncomputable def frac_ionization_ion_calc (engrid : ℕ → ℝ) (n : ℕ)
    (yvec : ℕ → ℝ) (deposition_density_ev nnion : ℝ) (shells : List Shell) : ℝ :=
  (shells.map fun s =>
    let f := frac_ionization_shell_raw engrid n yvec deposition_density_ev nnion s
    if 1 < f then 0 else f).sum

/-- Shells whose raw ionization fraction exceeds 1, for which
`analyse_ntspectrum` prints an `Ignoring frac_ionization_shell` warning. -/
noncomputable def ionization_warning_shells (engrid : ℕ → ℝ) (n : ℕ)
    (yvec : ℕ → ℝ) (deposition_density_ev nnion : ℝ) (shells : List Shell) :
    List Shell :=
  shells.filter fun s =>
    decide (1 < frac_ionization_shell_raw engrid n yvec deposition_density_ev nnion s)

/-- Per-ion excitation fraction of `analyse_ntspectrum`: zero when excitation
is disabled, and otherwise the computed fraction reset to 0 when it exceeds 1
(with an `Ignoring frac_excitation_ion` warning printed). -/
noncomputable def frac_excitation_ion_calc (engrid : ℕ → ℝ) (n : ℕ)
    (yvec : ℕ → ℝ) (deposition_density_ev : ℝ) (transitions : List Transition)
    (noexcitation : Bool) : ℝ :=
  if noexcitation then 0
  else
    let fe := calculate_nt_frac_excitation engrid n transitions yvec deposition_density_ev
    if 1 < fe then 0 else fe

/-- Per-ion non-thermal ionization rate of `analyse_ntspectrum`:
`deposition_density_ev / nntot / eff_ionpot` with `eff_ionpot =
ionpot_valence * X_ion / frac_ionization_ion`; the source's
`ZeroDivisionError` handler sets `eff_ionpot` to infinity, so a zero ion
fraction yields a zero rate. -/
noncomputable def gamma_nt_calc (engrid : ℕ → ℝ) (n : ℕ) (yvec : ℕ → ℝ)
    (deposition_density_ev nntot : ℝ) (ion : IonData) : ℝ :=
  let fi := frac_ionization_ion_calc engrid n yvec deposition_density_ev
    ion.nnion ion.shells
  let ionpot_valence := ((ion.shells.map fun s => s.ionpot_ev).min?).getD 0
  let X_ion := ion.nnion / nntot
  if fi = 0 then 0
  else deposition_density_ev / nntot / (ionpot_valence * X_ion / fi)

/-- The tuple returned by `analyse_ntspectrum` (its heating fraction is only
printed, not returned), plus the warnings the loop prints on the way. -/
structure AnalysisResult where
  frac_excitation : ℝ
  frac_ionization : ℝ
  frac_excitation_ion : List ((ℕ × ℕ) × ℝ)
  frac_ionization_ion : List ((ℕ × ℕ) × ℝ)
  gamma_nt : List ((ℕ × ℕ) × ℝ)
  ionization_warnings : List ((ℕ × ℕ) × List Shell)
  excitation_warnings : List (ℕ × ℕ)

/-- Embedding of the returned part of `analyse_ntspectrum(engrid, yvec, ions,
ionpopdict, nntot, nne, deposition_density_ev, dfcollion, dftransitions,
noexcitation, modelpath)`: per-ion and aggregate ionization and excitation
fractions with the greater-than-one clamp, `gamma_nt`, and the emitted
clamp warnings. -/
noncomputable def analyse_ntspectrum (engrid : ℕ → ℝ) (n : ℕ) (yvec : ℕ → ℝ)
    (ions : List IonData) (nntot deposition_density_ev : ℝ)
    (noexcitation : Bool) : AnalysisResult where
  frac_excitation :=
    (ions.map fun ion => frac_excitation_ion_calc engrid n yvec
      deposition_density_ev ion.transitions noexcitation).sum
  frac_ionization :=
    (ions.map fun ion => frac_ionization_ion_calc engrid n yvec
      deposition_density_ev ion.nnion ion.shells).sum
  frac_excitation_ion :=
    ions.map fun ion => ((ion.Z, ion.ionstage), frac_excitation_ion_calc engrid n
      yvec deposition_density_ev ion.transitions noexcitation)
  frac_ionization_ion :=
    ions.map fun ion => ((ion.Z, ion.ionstage), frac_ionization_ion_calc engrid n
      yvec deposition_density_ev ion.nnion ion.shells)
  gamma_nt :=
    ions.map fun ion => ((ion.Z, ion.ionstage), gamma_nt_calc engrid n yvec
      deposition_density_ev nntot ion)
  ionization_warnings :=
    ions.map fun ion => ((ion.Z, ion.ionstage), ionization_warning_shells engrid n
      yvec deposition_density_ev ion.nnion ion.shells)
  excitation_warnings :=
    (ions.filter fun ion => decide (noexcitation = false ∧
      1 < calculate_nt_frac_excitation engrid n ion.transitions yvec
        deposition_density_ev)).map fun ion => (ion.Z, ion.ionstage)

/-- C9: for a uniform, strictly increasing grid, `get_index(en_ev, engrid)`
returns the greatest index `i` with `engrid[i] < en_ev` for every `en_ev`
strictly between `engrid[0]` and `engrid[-1] + (engrid[1] - engrid[0])`;
but at `en_ev = engrid[0]` both of the function's assertions hold and yet no
index is ever assigned, so the result is the error value `none`. -/
theorem c9_get_index_boundary (engrid : ℕ → ℝ) (n : ℕ) (E0 deltaen : ℝ)
    (hn : 1 ≤ n) (hd : 0 < deltaen)
    (hg : ∀ m : ℕ, engrid m = E0 + m * deltaen) :
    (∀ en_ev, engrid 0 < en_ev →
      en_ev < engrid (n - 1) + (engrid 1 - engrid 0) →
      ∃ k, get_index en_ev engrid n = some k ∧ k < n ∧ engrid k < en_ev ∧
        ∀ m, m < n → engrid m < en_ev → m ≤ k) ∧
    (engrid 0 ≤ engrid 0 ∧
      engrid 0 < engrid (n - 1) + (engrid 1 - engrid 0) ∧
      get_index (engrid 0) engrid n = none) := by
  constructor
  · intro en_ev h0 _
    obtain ⟨k, hk⟩ := get_index_isSome (show 0 < n by omega) h0
    obtain ⟨hkn, hklt⟩ := get_index_some_lt hk
    refine ⟨k, hk, hkn, hklt, ?_⟩
    intro m hmn hmlt
    by_contra hcon
    exact get_index_some_ge hk m (by omega) hmn hmlt
  · refine ⟨le_refl _, ?_, ?_⟩
    · rw [hg (n - 1), hg 1, hg 0]
      have : (0 : ℝ) ≤ (n - 1 : ℕ) * deltaen :=
        mul_nonneg (Nat.cast_nonneg _) hd.le
      push_cast
      nlinarith
    · refine get_index_none fun m _ => ?_
      rw [hg m, hg 0]
      have : (0 : ℝ) ≤ (m : ℕ) * deltaen := mul_nonneg (Nat.cast_nonneg _) hd.le
      push_cast
      nlinarith

/-- Witness for C9 on the concrete grid `1, 2, 3`: the greatest index below
`5/2` exists, and the query at exactly `engrid[0] = 1` yields the error
value. -/
theorem c9_get_index_boundary_witness :
    (∃ k, get_index (5 / 2) (fun m : ℕ => 1 + m * 1) 3 = some k ∧ k < 3 ∧
      (fun m : ℕ => 1 + (m : ℝ) * 1) k < 5 / 2 ∧
      ∀ m, m < 3 → (fun m : ℕ => 1 + (m : ℝ) * 1) m < 5 / 2 → m ≤ k) ∧
    get_index ((fun m : ℕ => 1 + (m : ℝ) * 1) 0) (fun m : ℕ => 1 + m * 1) 3 = none := by
  have h := c9_get_index_boundary (fun m : ℕ => 1 + m * 1) 3 1 1
    (by norm_num) (by norm_num) (fun m => rfl)
  exact ⟨h.1 (5 / 2) (by norm_num) (by norm_num), h.2.2.2⟩

set_option maxRecDepth 4000 in
/-- C7 is about the overflow case of `get_electronoccupancy`: the spec calls
for report-and-abort, but the source only prints the `Abort!` message and
keeps iterating, returning the truncated occupancy vector.  For Z = 31 at
ion stage 1 (31 bound electrons, 30 modeled slots) the overflow branch is
reached and the function still returns a full 30-electron occupancy list. -/
theorem c7_get_electronoccupancy_overflow_returns :
    get_electronoccupancy 31 1 10 = ([2, 2, 2, 4, 2, 2, 4, 4, 6, 2], true) ∧
    (get_electronoccupancy 31 1 10).1.sum = 30 := by decide

/-- C8: `calculate_N_e` is memoized on `energy_ev` alone in the module-global
`N_e_cache` and never invalidated: once the cache holds a value for a nonzero
energy, any later call with that energy returns the stored value and leaves
the cache unchanged, whatever the grid, ions, spectrum or excitation flag of
the later call, so two runs differing only in those arguments agree. -/
theorem c8_calculate_N_e_cache_ignores_args (energy_ev v : ℝ)
    (N_e_cache : List (ℝ × ℝ)) (engrid1 engrid2 : ℕ → ℝ) (n1 n2 : ℕ)
    (ions1 ions2 : List IonData) (yvec1 yvec2 : ℕ → ℝ) (noexc1 noexc2 : Bool)
    (he : energy_ev ≠ 0) (hv : cacheLookup N_e_cache energy_ev = some v) :
    calculate_N_e energy_ev engrid1 n1 ions1 yvec1 noexc1 N_e_cache =
      some (v, N_e_cache) ∧
    calculate_N_e energy_ev engrid2 n2 ions2 yvec2 noexc2 N_e_cache =
      some (v, N_e_cache) := by
  constructor <;> simp only [calculate_N_e, if_neg he, hv]

/-- Witness for C8: with `42` cached for energy `5`, two calls whose other
arguments disagree in every component both return the cached pair. -/
theorem c8_calculate_N_e_cache_witness :
    calculate_N_e 5 (fun m : ℕ => 1 + (m : ℝ)) 3 [] (fun _ => 0) true [(5, 42)] =
      some (42, [(5, 42)]) ∧
    calculate_N_e 5 (fun m : ℕ => 2 + (m : ℝ)) 7 [] (fun _ => 1) false [(5, 42)] =
      some (42, [(5, 42)]) :=
  c8_calculate_N_e_cache_ignores_args 5 42 [(5, 42)]
    (fun m : ℕ => 1 + (m : ℝ)) (fun m : ℕ => 2 + (m : ℝ)) 3 7 [] []
    (fun _ => 0) (fun _ => 1) true false (by norm_num)
    (by simp [cacheLookup])

/-- C10: the differential-form solver supports only the no-excitation
configuration: with a non-empty ion list and `noexcitation = False` its
per-ion `assert noexcitation` fails (modelled by `none`), and any normal
return carries an empty transitions dictionary. -/
theorem c10_differentialform_noexcitation_only (engrid : ℕ → ℝ) (n : ℕ)
    (iondata : List IonData) (nne deposition_density_ev : ℝ)
    (sourcevec : ℕ → ℝ) (noexcitation : Bool) :
    (iondata ≠ [] → noexcitation = false →
      solve_spencerfano_differentialform_checked engrid n iondata nne
        deposition_density_ev sourcevec noexcitation = none) ∧
    (∀ r, solve_spencerfano_differentialform_checked engrid n iondata nne
        deposition_density_ev sourcevec noexcitation = some r → r.2 = []) := by
  constructor
  · intro hne hfalse
    rw [solve_spencerfano_differentialform_checked, if_neg]
    rintro ⟨-, hd | hd⟩
    · exact hne hd
    · rw [hfalse] at hd; cases hd
  · intro r hr
    rw [solve_spencerfano_differentialform_checked] at hr
    split_ifs at hr
    injection hr with hr2
    rw [← hr2]
    rfl

/-- Witness for C10: a concrete one-ion call with excitation enabled raises,
and the empty-ion-list solve returns an empty transitions dictionary. -/
theorem c10_differentialform_witness :
    solve_spencerfano_differentialform_checked (fun m : ℕ => 1 + (m : ℝ)) 3
      [⟨26, 2, 1, [⟨26, 2, 16, fun _ => 0⟩], []⟩] 1 1 (fun _ => 0) false = none ∧
    (solve_spencerfano_differentialform (fun m : ℕ => 1 + (m : ℝ)) 3 [] 1 1
      (fun _ => 0) false).2 = [] := by
  constructor
  · exact (c10_differentialform_noexcitation_only (fun m : ℕ => 1 + (m : ℝ)) 3
      [⟨26, 2, 1, [⟨26, 2, 16, fun _ => 0⟩], []⟩] 1 1 (fun _ => 0) false).1
      (by simp) rfl
  · exact (c10_differentialform_noexcitation_only (fun m : ℕ => 1 + (m : ℝ)) 3
      [] 1 1 (fun _ => 0) false).2 _
      (by simp [solve_spencerfano_differentialform_checked])

theorem sum_map_clamp_eq_sum_filter {α : Type} (f : α → ℝ) (l : List α) :
    (l.map fun s => if 1 < f s then 0 else f s).sum =
      ((l.filter fun s => decide (¬ 1 < f s)).map f).sum := by
  induction l with
  | nil => simp
  | cons a t ih =>
    by_cases h : 1 < f a
    · simp only [List.map_cons, List.sum_cons, if_pos h, List.filter_cons]
      have hd : (decide (¬ 1 < f a)) = false := by simpa using h
      rw [hd]
      simp [ih]
    · simp only [List.map_cons, List.sum_cons, if_neg h, List.filter_cons]
      have hd : (decide (¬ 1 < f a)) = true := by simpa using h
      rw [hd]
      simp [ih]

/-- C5: in `analyse_ntspectrum`, every ionization shell whose computed
fraction exceeds 1 and every ion whose excitation fraction exceeds 1 is
clamped to exactly 0 (not 1, not the computed value): the per-ion and
aggregate sums range only over the non-exceeding channels, the exceeding
channels appear in the emitted warnings, and the function still produces its
full result record. -/
theorem c5_analyse_ntspectrum_clamp (engrid : ℕ → ℝ) (n : ℕ) (yvec : ℕ → ℝ)
    (ions : List IonData) (nntot deposition_density_ev : ℝ)
    (noexcitation : Bool) :
    ((analyse_ntspectrum engrid n yvec ions nntot deposition_density_ev
        noexcitation).frac_ionization =
      (ions.map fun ion => (((ion.shells.filter fun s => decide (¬ 1 <
          frac_ionization_shell_raw engrid n yvec deposition_density_ev
            ion.nnion s)).map
        (frac_ionization_shell_raw engrid n yvec deposition_density_ev
          ion.nnion)).sum)).sum) ∧
    (∀ ion : IonData, ∀ s ∈ ion.shells,
      1 < frac_ionization_shell_raw engrid n yvec deposition_density_ev
          ion.nnion s →
      s ∈ ionization_warning_shells engrid n yvec deposition_density_ev
          ion.nnion ion.shells) ∧
    (noexcitation = false →
      (analyse_ntspectrum engrid n yvec ions nntot deposition_density_ev
          noexcitation).frac_excitation =
        ((ions.filter fun ion => decide (¬ 1 < calculate_nt_frac_excitation
            engrid n ion.transitions yvec deposition_density_ev)).map
          fun ion => calculate_nt_frac_excitation engrid n ion.transitions yvec
            deposition_density_ev).sum) ∧
    (∀ ion : IonData, noexcitation = false →
      1 < calculate_nt_frac_excitation engrid n ion.transitions yvec
          deposition_density_ev →
      frac_excitation_ion_calc engrid n yvec deposition_density_ev
        ion.transitions noexcitation = 0) ∧
    (∀ ion ∈ ions, noexcitation = false →
      1 < calculate_nt_frac_excitation engrid n ion.transitions yvec
          deposition_density_ev →
      (ion.Z, ion.ionstage) ∈ (analyse_ntspectrum engrid n yvec ions nntot
        deposition_density_ev noexcitation).excitation_warnings) := by
  refine ⟨?_, ?_, ?_, ?_, ?_⟩
  · have hperion : ∀ ion : IonData,
        frac_ionization_ion_calc engrid n yvec deposition_density_ev
          ion.nnion ion.shells =
        ((ion.shells.filter fun s => decide (¬ 1 <
            frac_ionization_shell_raw engrid n yvec deposition_density_ev
              ion.nnion s)).map
          (frac_ionization_shell_raw engrid n yvec deposition_density_ev
            ion.nnion)).sum := fun ion =>
      sum_map_clamp_eq_sum_filter _ ion.shells
    simp only [analyse_ntspectrum, hperion]
  · intro ion s hs hraw
    rw [ionization_warning_shells]
    exact List.mem_filter.mpr ⟨hs, by simpa using hraw⟩
  · intro hfalse
    have hperion : ∀ ion : IonData,
        frac_excitation_ion_calc engrid n yvec deposition_density_ev
          ion.transitions noexcitation =
        if 1 < calculate_nt_frac_excitation engrid n ion.transitions yvec
            deposition_density_ev then 0
        else calculate_nt_frac_excitation engrid n ion.transitions yvec
            deposition_density_ev := by
      intro ion
      rw [frac_excitation_ion_calc, hfalse]
      simp
    simp only [analyse_ntspectrum, hperion]
    exact sum_map_clamp_eq_sum_filter
      (fun ion : IonData => calculate_nt_frac_excitation engrid n
        ion.transitions yvec deposition_density_ev) ions
  · intro ion hfalse hgt
    rw [frac_excitation_ion_calc, hfalse]
    simp [hgt]
  · intro ion hm hfalse hgt
    simp only [analyse_ntspectrum]
    refine List.mem_map.mpr ⟨ion, List.mem_filter.mpr ⟨hm, ?_⟩, rfl⟩
    simp [hfalse, hgt]

/-- Witness for C5: a single shell with raw fraction 4 contributes nothing to
the aggregate ionization fraction and shows up in the warnings. -/
theorem c5_analyse_ntspectrum_clamp_witness :
    (analyse_ntspectrum (fun m : ℕ => 1 + (m : ℝ)) 1 (fun _ => 1)
      [⟨1, 1, 4, [⟨1, 1, 1, fun _ => 1⟩], []⟩] 1 1 true).frac_ionization = 0 ∧
    (⟨1, 1, 1, fun _ => 1⟩ : Shell) ∈ ionization_warning_shells
      (fun m : ℕ => 1 + (m : ℝ)) 1 (fun _ => 1) 1 4 [⟨1, 1, 1, fun _ => 1⟩] := by
  have h := c5_analyse_ntspectrum_clamp (fun m : ℕ => 1 + (m : ℝ)) 1
    (fun _ => 1) [⟨1, 1, 4, [⟨1, 1, 1, fun _ => 1⟩], []⟩] 1 1 true
  have hraw : 1 < frac_ionization_shell_raw (fun m : ℕ => 1 + (m : ℝ)) 1
      (fun _ => 1) 1 4 ⟨1, 1, 1, fun _ => 1⟩ := by
    rw [frac_ionization_shell_raw, dotGrid]
    norm_num
  constructor
  · rw [h.1]
    simp [List.filter_cons, hraw]
  · exact h.2.1 ⟨1, 1, 4, [⟨1, 1, 1, fun _ => 1⟩], []⟩ ⟨1, 1, 1, fun _ => 1⟩
      (List.mem_singleton.mpr rfl) hraw

/-- C2: on a uniform positive grid with the shell threshold at or above the
grid start, every column `j` at or beyond `secondintegralstartindex + 1` (so
that `engrid[j] >= 2 * engrid[i] + ionpot_ev`) satisfies the bound ordering
`epsilon_lower = engrid[i] + ionpot_ev <= epsilon_upper =
(engrid[j] + ionpot_ev) / 2`, hence the source's assertion never fails, and
the fold-over arctangent term enters the matrix entry subtracted from the
first integral term. -/
theorem c2_ionization_foldover_subtracted (engrid : ℕ → ℝ) (n : ℕ)
    (E0 deltaen nnion : ℝ) (shell : Shell) (i j k : ℕ)
    (hg : ∀ m : ℕ, engrid m = E0 + m * deltaen)
    (hE0 : 0 < E0) (hd : 0 < deltaen) (hip : E0 ≤ shell.ionpot_ev)
    (hi : i < n) (hj : j < n)
    (hsec : 2 * engrid i + shell.ionpot_ev < engrid (n - 1) +
      (engrid 1 - engrid 0))
    (hidx : get_index (2 * engrid i + shell.ionpot_ev) engrid n = some k)
    (hk : k + 1 ≤ j) :
    engrid i + shell.ionpot_ev ≤ (engrid j + shell.ionpot_ev) / 2 ∧
    ionizationEntry engrid n nnion shell i j =
      nnion * shell.xs j / Real.arctan ((engrid j - shell.ionpot_ev) / 2 /
          get_J shell.Z shell.ionstage shell.ionpot_ev) * (engrid 1 - engrid 0) *
        (Real.arctan (((engrid j + shell.ionpot_ev) / 2 - shell.ionpot_ev) /
            get_J shell.Z shell.ionstage shell.ionpot_ev) -
          Real.arctan ((engrid j - engrid i - shell.ionpot_ev) /
            get_J shell.Z shell.ionstage shell.ionpot_ev)) -
      nnion * shell.xs j / Real.arctan ((engrid j - shell.ionpot_ev) / 2 /
          get_J shell.Z shell.ionstage shell.ionpot_ev) * (engrid 1 - engrid 0) *
        (Real.arctan (((engrid j + shell.ionpot_ev) / 2 - shell.ionpot_ev) /
            get_J shell.Z shell.ionstage shell.ionpot_ev) -
          Real.arctan ((engrid i + shell.ionpot_ev - shell.ionpot_ev) /
            get_J shell.Z shell.ionstage shell.ionpot_ev)) := by
  have hmono : ∀ a b : ℕ, engrid a < engrid b → a < b := by
    intro a b hab
    rw [hg a, hg b] at hab
    by_contra hcon
    push_neg at hcon
    have hba : (b : ℝ) ≤ (a : ℝ) := by exact_mod_cast hcon
    have := mul_le_mul_of_nonneg_right hba hd.le
    linarith
  have hipos : 0 < engrid i := by
    rw [hg i]
    have h0 : (0 : ℝ) ≤ (i : ℝ) * deltaen := mul_nonneg (Nat.cast_nonneg i) hd.le
    linarith
  have hIpos : 0 < shell.ionpot_ev := lt_of_lt_of_le hE0 hip
  have hxj : 2 * engrid i + shell.ionpot_ev ≤ engrid j :=
    not_lt.mp (get_index_some_ge hidx j (by omega) hj)
  have hij : i < j := hmono i j (by linarith)
  have hxs : (if shell.ionpot_ev ≤ engrid 0 then 0
      else (get_index shell.ionpot_ev engrid n).getD 0) ≤ j := by
    split_ifs with h0
    · exact Nat.zero_le j
    · cases hgi : get_index shell.ionpot_ev engrid n with
      | none => simp
      | some m =>
        simp only [Option.getD_some]
        have hm := (get_index_some_lt hgi).2
        exact le_of_lt (hmono m j (by linarith))
  refine ⟨by linarith, ?_⟩
  simp only [ionizationEntry]
  rw [if_pos ⟨hi, hj, max_le (le_of_lt hij) hxs⟩, if_pos hsec, hidx,
    Option.getD_some, if_pos hk]

/-- Witness inputs for the C2 theorem: the grid `1, 2, 3, 4, 5` and a shell
with unit threshold and unit cross-section. -/
noncomputable def c2grid : ℕ → ℝ := fun m => 1 + (m : ℝ) * 1

/-- Witness shell for the C2 theorem. -/
noncomputable def c2shell : Shell := ⟨1, 1, 1, fun _ => 1⟩

/-- Witness for C2 at the concrete grid `1, .., 5`, row 0, fold-over column 3:
the bounds are ordered and the entry carries the subtracted fold-over term. -/
theorem c2_ionization_foldover_subtracted_witness :
    c2grid 0 + c2shell.ionpot_ev ≤ (c2grid 3 + c2shell.ionpot_ev) / 2 ∧
    ionizationEntry c2grid 5 1 c2shell 0 3 =
      1 * c2shell.xs 3 / Real.arctan ((c2grid 3 - c2shell.ionpot_ev) / 2 /
          get_J c2shell.Z c2shell.ionstage c2shell.ionpot_ev) * (c2grid 1 - c2grid 0) *
        (Real.arctan (((c2grid 3 + c2shell.ionpot_ev) / 2 - c2shell.ionpot_ev) /
            get_J c2shell.Z c2shell.ionstage c2shell.ionpot_ev) -
          Real.arctan ((c2grid 3 - c2grid 0 - c2shell.ionpot_ev) /
            get_J c2shell.Z c2shell.ionstage c2shell.ionpot_ev)) -
      1 * c2shell.xs 3 / Real.arctan ((c2grid 3 - c2shell.ionpot_ev) / 2 /
          get_J c2shell.Z c2shell.ionstage c2shell.ionpot_ev) * (c2grid 1 - c2grid 0) *
        (Real.arctan (((c2grid 3 + c2shell.ionpot_ev) / 2 - c2shell.ionpot_ev) /
            get_J c2shell.Z c2shell.ionstage c2shell.ionpot_ev) -
          Real.arctan ((c2grid 0 + c2shell.ionpot_ev - c2shell.ionpot_ev) /
            get_J c2shell.Z c2shell.ionstage c2shell.ionpot_ev)) :=
  c2_ionization_foldover_subtracted c2grid 5 1 1 1 c2shell 0 3 1
    (fun m => rfl) (by norm_num) (by norm_num) (by norm_num [c2shell])
    (by norm_num) (by norm_num) (by norm_num [c2grid, c2shell])
    (by norm_num [get_index, c2grid, c2shell]) (by norm_num)

/-- C3: for any primary energy above the ionization potential and any
positive J, the `Psecondary` density integrated over its full secondary-energy
domain `[0, (e_p - ionpot) / 2]` equals exactly 1, via the arctangent
antiderivative. -/
theorem c3_Psecondary_normalized (e_p ionpot_ev J : ℝ)
    (he : ionpot_ev < e_p) (hJ : 0 < J) :
    ∫ e_s in (0 : ℝ)..((e_p - ionpot_ev) / 2),
      Psecondary e_p ionpot_ev J e_s (e_s + ionpot_ev) = 1 := by
  have harg : 0 < (e_p - ionpot_ev) / 2 / J :=
    div_pos (div_pos (sub_pos.mpr he) two_pos) hJ
  have hKpos : 0 < Real.arctan ((e_p - ionpot_ev) / 2 / J) := by
    have h := Real.arctan_strictMono harg
    simpa [Real.arctan_zero] using h
  have hfun : ∀ x : ℝ, Psecondary e_p ionpot_ev J x (x + ionpot_ev) =
      (1 / J / Real.arctan ((e_p - ionpot_ev) / 2 / J)) * (1 + (x / J) ^ 2)⁻¹ := by
    intro x
    simp only [Psecondary]
    split_ifs with hx
    · have hxx : x + ionpot_ev - ionpot_ev = x := by ring
      rw [hxx, div_eq_mul_inv]
    · rw [div_eq_mul_inv]
  have hderiv : ∀ x ∈ Set.uIcc (0 : ℝ) ((e_p - ionpot_ev) / 2),
      HasDerivAt (fun y => J * Real.arctan (y / J)) ((1 + (x / J) ^ 2)⁻¹) x := by
    intro x _
    have h1 : HasDerivAt (fun y : ℝ => y / J) (1 / J) x := by
      simpa using (hasDerivAt_id x).div_const J
    have h2 : HasDerivAt (fun y : ℝ => Real.arctan (y / J))
        (1 / (1 + (x / J) ^ 2) * (1 / J)) x :=
      (Real.hasDerivAt_arctan (x / J)).comp x h1
    have h3 := h2.const_mul J
    convert h3 using 1
    have hne : (1 + (x / J) ^ 2) ≠ 0 := by positivity
    field_simp
    ring
  have hcont : IntervalIntegrable (fun x : ℝ => (1 + (x / J) ^ 2)⁻¹)
      MeasureTheory.volume 0 ((e_p - ionpot_ev) / 2) := by
    apply Continuous.intervalIntegrable
    have hc : Continuous fun x : ℝ => 1 + (x / J) ^ 2 := by continuity
    exact hc.inv₀ fun x => by positivity
  have hint := intervalIntegral.integral_eq_sub_of_hasDerivAt hderiv hcont
  rw [intervalIntegral.integral_congr fun x _ => hfun x,
    intervalIntegral.integral_const_mul, hint]
  rw [zero_div, Real.arctan_zero, mul_zero, sub_zero]
  have hmul : 1 / J / Real.arctan ((e_p - ionpot_ev) / 2 / J) *
      (J * Real.arctan ((e_p - ionpot_ev) / 2 / J)) =
      (J * Real.arctan ((e_p - ionpot_ev) / 2 / J)) /
      (J * Real.arctan ((e_p - ionpot_ev) / 2 / J)) := by ring
  rw [hmul, div_self (mul_pos hJ hKpos).ne']

/-- Witness for C3 at `e_p = 2`, `ionpot = 1`, `J = 1`. -/
theorem c3_Psecondary_normalized_witness :
    (1 : ℝ) < 2 ∧ (0 : ℝ) < 1 ∧
    ∫ e_s in (0 : ℝ)..(((2 : ℝ) - 1) / 2),
      Psecondary 2 1 1 e_s (e_s + 1) = 1 :=
  ⟨by norm_num, by norm_num,
    c3_Psecondary_normalized 2 1 1 (by norm_num) (by norm_num)⟩

theorem lossfunction_high_eq (energy_ev nne nnetot : ℝ) (h14 : energy_ev > 14) :
    lossfunction energy_ev nne nnetot false =
      nne * 2 * Real.pi * QE ^ 4 / (energy_ev * EV) *
        Real.log (2 * (energy_ev * EV) /
          (H * (5.64e4 * Real.sqrt nne) / 2 / Real.pi)) / EV := by
  simp only [lossfunction]
  rw [if_pos h14]
  simp

theorem lossfunction_low_eq (energy_ev nne nnetot : ℝ) (h14 : ¬ energy_ev > 14) :
    lossfunction energy_ev nne nnetot false =
      nne * 2 * Real.pi * QE ^ 4 / (energy_ev * EV) *
        Real.log (ME * Real.sqrt (2 * (energy_ev * EV) / ME) ^ 3 /
          (0.577215664901532 * QE ^ 2 * (5.64e4 * Real.sqrt nne))) / EV := by
  simp only [lossfunction]
  rw [if_neg h14]
  simp

/-- Counterexample to C6 as stated: at `E = 1e-12 eV`, `nne = nnetot = 1`,
both of which satisfy the claim's `E > 0`, `nne > 0` premises, the
Euler-Mascheroni branch Coulomb logarithm has an argument far below 1, so
`lossfunction` returns a strictly negative value. -/
theorem c6_lossfunction_negative_counterexample :
    lossfunction 1e-12 1 1 false < 0 := by
  rw [lossfunction_low_eq 1e-12 1 1 (by norm_num)]
  have hEV : (0 : ℝ) < EV := by norm_num [EV]
  have h0a : (0 : ℝ) ≤ 2 * ((1e-12 : ℝ) * EV) / ME := by norm_num [EV, ME]
  have hs0 : 0 < Real.sqrt (2 * ((1e-12 : ℝ) * EV) / ME) :=
    Real.sqrt_pos.mpr (by norm_num [EV, ME])
  have hs : Real.sqrt (2 * ((1e-12 : ℝ) * EV) / ME) < 60 := by
    rw [show (60 : ℝ) = Real.sqrt (60 ^ 2) by
      rw [Real.sqrt_sq (by norm_num)]]
    exact Real.sqrt_lt_sqrt h0a (by norm_num [EV, ME])
  have hsq : Real.sqrt (2 * ((1e-12 : ℝ) * EV) / ME) ^ 2 =
      2 * ((1e-12 : ℝ) * EV) / ME := Real.sq_sqrt h0a
  have hcube : Real.sqrt (2 * ((1e-12 : ℝ) * EV) / ME) ^ 3 =
      (2 * ((1e-12 : ℝ) * EV) / ME) *
        Real.sqrt (2 * ((1e-12 : ℝ) * EV) / ME) := by
    rw [pow_succ, hsq]
  have hdenpos : (0 : ℝ) < 0.577215664901532 * QE ^ 2 *
      (5.64e4 * Real.sqrt 1) := by
    rw [Real.sqrt_one]
    norm_num [QE]
  have hargpos : (0 : ℝ) < ME * Real.sqrt (2 * ((1e-12 : ℝ) * EV) / ME) ^ 3 /
      (0.577215664901532 * QE ^ 2 * (5.64e4 * Real.sqrt 1)) := by
    apply div_pos _ hdenpos
    have hME : (0 : ℝ) < ME := by norm_num [ME]
    positivity
  have harglt : ME * Real.sqrt (2 * ((1e-12 : ℝ) * EV) / ME) ^ 3 /
      (0.577215664901532 * QE ^ 2 * (5.64e4 * Real.sqrt 1)) < 1 := by
    rw [div_lt_one hdenpos, hcube, Real.sqrt_one]
    have hME : ME * (2 * ((1e-12 : ℝ) * EV) / ME *
        Real.sqrt (2 * ((1e-12 : ℝ) * EV) / ME)) =
        (2 * ((1e-12 : ℝ) * EV)) *
          Real.sqrt (2 * ((1e-12 : ℝ) * EV) / ME) := by
      have hME0 : (ME : ℝ) ≠ 0 := by norm_num [ME]
      rw [show ME * (2 * ((1e-12 : ℝ) * EV) / ME *
          Real.sqrt (2 * ((1e-12 : ℝ) * EV) / ME)) =
          2 * ((1e-12 : ℝ) * EV) *
            Real.sqrt (2 * ((1e-12 : ℝ) * EV) / ME) * (ME / ME) from by ring,
        div_self hME0, mul_one]
    rw [hME]
    have hbound : (2 * ((1e-12 : ℝ) * EV)) *
        Real.sqrt (2 * ((1e-12 : ℝ) * EV) / ME) <
        (2 * ((1e-12 : ℝ) * EV)) * 60 := by
      apply mul_lt_mul_of_pos_left hs
      norm_num [EV]
    refine lt_trans hbound ?_
    norm_num [EV, QE]
  have hlog : Real.log (ME * Real.sqrt (2 * ((1e-12 : ℝ) * EV) / ME) ^ 3 /
      (0.577215664901532 * QE ^ 2 * (5.64e4 * Real.sqrt 1))) < 0 :=
    Real.log_neg hargpos harglt
  have hC : (0 : ℝ) < 1 * 2 * Real.pi * QE ^ 4 / ((1e-12 : ℝ) * EV) := by
    apply div_pos
    · have := Real.pi_pos
      have hq : (0 : ℝ) < QE ^ 4 := by norm_num [QE]
      nlinarith
    · norm_num [EV]
  exact div_neg_of_neg_of_pos (mul_neg_of_pos_of_neg hC hlog) hEV

/-- C6 (amended): for every `E > 0`, `nne > 0`, `nnetot > 0`, `lossfunction`
uses the relativistic `log(2E/zeta_e)` form when `E > 14` eV and the
Euler-Mascheroni form otherwise, and in each branch the returned value is
finite (a real number) and strictly positive whenever the branch's Coulomb
logarithm argument exceeds 1 — in the relativistic branch exactly the
condition `2 * energy > zeta_e` that the source asserts.  (As stated over all
`E > 0` the claim fails: see the counterexample at `E = 1e-12` eV.) -/
theorem c6_lossfunction_branches_positive (energy_ev nne nnetot : ℝ)
    (hE : 0 < energy_ev) (hnne : 0 < nne) (hnnetot : 0 < nnetot) :
    (energy_ev > 14 →
      H * (5.64e4 * Real.sqrt nne) / 2 / Real.pi < 2 * (energy_ev * EV) →
      lossfunction energy_ev nne nnetot false =
        nne * 2 * Real.pi * QE ^ 4 / (energy_ev * EV) *
          Real.log (2 * (energy_ev * EV) /
            (H * (5.64e4 * Real.sqrt nne) / 2 / Real.pi)) / EV ∧
      0 < lossfunction energy_ev nne nnetot false) ∧
    (¬ energy_ev > 14 →
      1 < ME * Real.sqrt (2 * (energy_ev * EV) / ME) ^ 3 /
          (0.577215664901532 * QE ^ 2 * (5.64e4 * Real.sqrt nne)) →
      lossfunction energy_ev nne nnetot false =
        nne * 2 * Real.pi * QE ^ 4 / (energy_ev * EV) *
          Real.log (ME * Real.sqrt (2 * (energy_ev * EV) / ME) ^ 3 /
            (0.577215664901532 * QE ^ 2 * (5.64e4 * Real.sqrt nne))) / EV ∧
      0 < lossfunction energy_ev nne nnetot false) := by
  have hEV : (0 : ℝ) < EV := by norm_num [EV]
  have henergy : 0 < energy_ev * EV := mul_pos hE hEV
  have hC : 0 < nne * 2 * Real.pi * QE ^ 4 / (energy_ev * EV) := by
    apply div_pos _ henergy
    have hq : (0 : ℝ) < QE ^ 4 := by norm_num [QE]
    exact mul_pos (mul_pos (mul_pos hnne two_pos) Real.pi_pos) hq
  constructor
  · intro h14 hz
    have h1 : 0 < Real.sqrt nne := Real.sqrt_pos.mpr hnne
    have h2 : (0 : ℝ) < H := by norm_num [H]
    have hzpos : 0 < H * (5.64e4 * Real.sqrt nne) / 2 / Real.pi :=
      div_pos (div_pos (mul_pos h2 (mul_pos (by norm_num) h1)) two_pos)
        Real.pi_pos
    have hlog : 0 < Real.log (2 * (energy_ev * EV) /
        (H * (5.64e4 * Real.sqrt nne) / 2 / Real.pi)) :=
      Real.log_pos ((one_lt_div hzpos).mpr hz)
    refine ⟨lossfunction_high_eq _ _ _ h14, ?_⟩
    rw [lossfunction_high_eq _ _ _ h14]
    exact div_pos (mul_pos hC hlog) hEV
  · intro h14 harg
    have hlog := Real.log_pos harg
    refine ⟨lossfunction_low_eq _ _ _ h14, ?_⟩
    rw [lossfunction_low_eq _ _ _ h14]
    exact div_pos (mul_pos hC hlog) hEV

/-- Witness for the amended C6 at `E = 20` eV, `nne = nnetot = 1`: the
relativistic branch applies and the loss is strictly positive. -/
theorem c6_lossfunction_branches_positive_witness :
    (0 : ℝ) < 20 ∧ (0 : ℝ) < 1 ∧ 0 < lossfunction 20 1 1 false := by
  have h := c6_lossfunction_branches_positive 20 1 1 (by norm_num)
    (by norm_num) (by norm_num)
  refine ⟨by norm_num, by norm_num, ?_⟩
  refine (h.1 (by norm_num) ?_).2
  rw [Real.sqrt_one]
  have ha : (0 : ℝ) < H * (5.64e4 * 1) / 2 := by norm_num [H]
  calc H * (5.64e4 * 1) / 2 / Real.pi
      < H * (5.64e4 * 1) / 2 / 3 :=
        div_lt_div_of_pos_left ha (by norm_num) Real.pi_gt_three
    _ < 2 * (20 * EV) := by norm_num [H, EV]

/-- C4 (amended): for every transition with threshold at or above the grid
start, the excitation assembly adds `n_lower * deltaen * xs_excitation(E_j)`
(with no `epsilon_trans_ev` factor) to the entries `(i, j)` for
`i <= j <= ceil(epsilon_trans_ev / deltaen)` — the source's slice
`[i : stopindex - i + 1]` — and this only when
`stopindex = i + ceil(epsilon_trans_ev / deltaen) < npts - 1`; all other
entries of row `i` are unchanged. -/
theorem c4_excitation_placement_amended (engrid : ℕ → ℝ) (n : ℕ)
    (row : Transition) (M : ℕ → ℕ → ℝ) (i j : ℕ)
    (hth : engrid 0 ≤ row.epsilon_trans_ev) (hi : i < n) (hj : j < n) :
    sfmatrix_add_excitation engrid n row M i j =
      M i j +
        (if (i : ℤ) + Int.ceil (row.epsilon_trans_ev / (engrid 1 - engrid 0)) <
              (n : ℤ) - 1 ∧ i ≤ j ∧
            (j : ℤ) ≤ Int.ceil (row.epsilon_trans_ev / (engrid 1 - engrid 0)) then
          row.lower_pop * (engrid 1 - engrid 0) *
            get_xs_excitation_vector engrid n row j
        else 0) := by
  simp only [sfmatrix_add_excitation]
  congr 1
  have hiff : (engrid 0 ≤ row.epsilon_trans_ev ∧ i < n ∧ j < n ∧
      (i : ℤ) + Int.ceil (row.epsilon_trans_ev / (engrid 1 - engrid 0)) <
        (n : ℤ) - 1 ∧ i ≤ j ∧
      (j : ℤ) ≤ (i : ℤ) + Int.ceil (row.epsilon_trans_ev /
        (engrid 1 - engrid 0)) - (i : ℤ)) ↔
      ((i : ℤ) + Int.ceil (row.epsilon_trans_ev / (engrid 1 - engrid 0)) <
        (n : ℤ) - 1 ∧ i ≤ j ∧
      (j : ℤ) ≤ Int.ceil (row.epsilon_trans_ev / (engrid 1 - engrid 0))) := by
    constructor
    · rintro ⟨-, -, -, h1, h2, h3⟩
      exact ⟨h1, h2, by omega⟩
    · rintro ⟨h1, h2, h3⟩
      exact ⟨hth, hi, hj, h1, h2, by omega⟩
  rw [if_congr hiff rfl rfl]

/-- Witness grid for the C4 theorems: the uniform grid `1, 2, 3, ...`. -/
noncomputable def c4grid : ℕ → ℝ := fun m => 1 + (m : ℝ) * 1

/-- Witness transition for the C4 theorems: collision strength 1, threshold
2 eV, unit statistical weights and level population. -/
noncomputable def c4row : Transition := ⟨1, false, 0, 2, 1, 1, 1⟩

/-- Counterexample to C4 as stated: the claim says entry
`(i, i + round(epsilon_trans_ev / deltaen))` receives the contribution
`n_lower * epsilon_trans_ev * deltaen * xs_excitation(E)` for every row `i`
with that column inside the grid.  At `i = 3`, column `3 + round(2/1) = 5` of
a 10-point grid, the source adds nothing at all (its slice
`[i : stopindex - i + 1]` is empty for `i > ceil(eps/deltaen)`), while the
claimed contribution is strictly positive. -/
theorem c4_excitation_placement_counterexample :
    sfmatrix_add_excitation c4grid 10 c4row (fun _ _ => 0) 3 5 ≠
      (fun _ _ => (0 : ℝ)) 3 5 +
        c4row.lower_pop * c4row.epsilon_trans_ev * (c4grid 1 - c4grid 0) *
          get_xs_excitation_vector c4grid 10 c4row 5 := by
  have hlhs : sfmatrix_add_excitation c4grid 10 c4row (fun _ _ => 0) 3 5 = 0 := by
    simp only [sfmatrix_add_excitation]
    rw [if_neg, add_zero]
    rintro ⟨-, -, -, -, -, h⟩
    rw [show Int.ceil (c4row.epsilon_trans_ev / (c4grid 1 - c4grid 0)) = 2 by
      norm_num [c4row, c4grid]] at h
    omega
  have hxs : get_xs_excitation_vector c4grid 10 c4row 5 =
      H_ionpot ^ 2 / 1 * 1 * Real.pi * A_naught_squared *
        (c4grid 5 * EV) ^ (-2 : ℤ) := by
    simp only [get_xs_excitation_vector, c4row]
    rw [if_pos (by norm_num), if_pos (by norm_num)]
    rw [if_pos]
    rw [show Int.ceil (((2 : ℝ) - c4grid 0) / (c4grid 1 - c4grid 0)) = 1 by
      norm_num [c4grid]]
    norm_num
  have hpos : 0 < c4row.lower_pop * c4row.epsilon_trans_ev *
      (c4grid 1 - c4grid 0) * get_xs_excitation_vector c4grid 10 c4row 5 := by
    rw [hxs]
    have h1 : (0 : ℝ) < H_ionpot := by norm_num [H_ionpot, EV]
    have h2 : (0 : ℝ) < A_naught_squared := by norm_num [A_naught_squared]
    have h3 : (0 : ℝ) < c4grid 5 * EV := by norm_num [c4grid, EV]
    have h4 : (0 : ℝ) < (c4grid 5 * EV) ^ (-2 : ℤ) := zpow_pos h3 _
    have h5 : (0 : ℝ) < c4row.lower_pop * c4row.epsilon_trans_ev *
        (c4grid 1 - c4grid 0) := by norm_num [c4row, c4grid]
    have h6 : (0 : ℝ) < H_ionpot ^ 2 / 1 * 1 * Real.pi * A_naught_squared :=
      mul_pos (mul_pos (by positivity) Real.pi_pos) h2
    exact mul_pos h5 (mul_pos h6 h4)
  rw [hlhs]
  intro hcon
  rw [zero_add] at hcon
  linarith

/-- Witness for the amended C4 at row 0, column 1 of the 10-point grid. -/
theorem c4_excitation_placement_amended_witness :
    sfmatrix_add_excitation c4grid 10 c4row (fun _ _ => 0) 0 1 =
      (fun _ _ => (0 : ℝ)) 0 1 +
        (if ((0 : ℕ) : ℤ) + Int.ceil (c4row.epsilon_trans_ev /
              (c4grid 1 - c4grid 0)) < (10 : ℤ) - 1 ∧ (0 : ℕ) ≤ 1 ∧
            ((1 : ℕ) : ℤ) ≤ Int.ceil (c4row.epsilon_trans_ev /
              (c4grid 1 - c4grid 0)) then
          c4row.lower_pop * (c4grid 1 - c4grid 0) *
            get_xs_excitation_vector c4grid 10 c4row 1
        else 0) :=
  c4_excitation_placement_amended c4grid 10 c4row (fun _ _ => 0) 0 1
    (by norm_num [c4grid, c4row]) (by norm_num) (by norm_num)

/-- C1: both solver entry points return exactly the LU solution of their
assembled operator against the source-derived right-hand side, rescaled by
`deposition_density_ev / E_init_ev` with
`E_init_ev = (sum of engrid[i] * sourcevec[i]) * deltaen`; the integral form
solves against the cumulative tail sums of the source and the differential
form against the source vector itself; consequently the returned spectrum is
linear in `deposition_density_ev` with everything else fixed. -/
theorem c1_solve_spencerfano_lu_rescale (engrid : ℕ → ℝ) (n : ℕ)
    (iondata : List IonData) (nne deposition_density_ev c : ℝ)
    (sourcevec : ℕ → ℝ) (noexcitation : Bool) :
    ((solve_spencerfano engrid n iondata nne deposition_density_ev sourcevec
        noexcitation).1 = fun i =>
      deposition_density_ev / E_init_ev engrid n sourcevec *
        luSolve n (sfmatrix_assembled engrid n iondata nne
          (get_nnetot iondata) noexcitation) (sf_constvec engrid n sourcevec) i) ∧
    (∀ i, sf_constvec engrid n sourcevec i =
      ∑ j ∈ Finset.Ico i n, sourcevec j * (engrid 1 - engrid 0)) ∧
    (E_init_ev engrid n sourcevec =
      (∑ i ∈ Finset.range n, engrid i * sourcevec i) * (engrid 1 - engrid 0)) ∧
    ((solve_spencerfano_differentialform engrid n iondata nne
        deposition_density_ev sourcevec noexcitation).1 = fun i =>
      deposition_density_ev / E_init_ev engrid n sourcevec *
        luSolve n (sfmatrix_diff_assembled engrid n iondata nne
          (get_nnetot iondata)) sourcevec i) ∧
    ((solve_spencerfano engrid n iondata nne (c * deposition_density_ev)
        sourcevec noexcitation).1 = fun i =>
      c * (solve_spencerfano engrid n iondata nne deposition_density_ev
        sourcevec noexcitation).1 i) ∧
    ((solve_spencerfano_differentialform engrid n iondata nne
        (c * deposition_density_ev) sourcevec noexcitation).1 = fun i =>
      c * (solve_spencerfano_differentialform engrid n iondata nne
        deposition_density_ev sourcevec noexcitation).1 i) := by
  refine ⟨?_, fun i => rfl, rfl, ?_, ?_, ?_⟩
  · funext i
    simp only [solve_spencerfano]
    ring
  · funext i
    simp only [solve_spencerfano_differentialform]
    ring
  · funext i
    simp only [solve_spencerfano]
    ring
  · funext i
    simp only [solve_spencerfano_differentialform]
    ring
